import Mathlib

/-!
Verification of the QueryBuddy NL2SQL pipeline (`src/mod/graph.py`,
`src/mod/chain.py`, `src/state_schema.py`).

The SQL extraction and validation algorithm of `SQLQueryValidator`
(`graph.py`) is embedded as executable functions on `List Char`; the six
pipeline stage functions of `graph.py` and the legacy
`SQLChain._format_results` of `chain.py` are embedded as pure state
transformers whose external effects (LLM calls, database round-trips,
dataframe rendering) are passed in as `Except`-valued oracle parameters.
-/

namespace QueryBuddy

/-- The ASCII whitespace class of Python's `str.strip` and of the regex
class `\s` used throughout `clean_and_extract_sql`. -/
def isWs (c : Char) : Bool :=
  c = ' ' || c = '\t' || c = '\n' || c = '\r' || c = '\x0b' || c = '\x0c'

/-- Python `str.strip()` on the character list of an ASCII string. -/
def stripChars (l : List Char) : List Char :=
  ((l.dropWhile isWs).reverse.dropWhile isWs).reverse

/-- One pass of whitespace-run collapsing; the flag records whether the
previous input character was whitespace (so its single space is already
emitted). -/
def collapseWsA : Bool → List Char → List Char
  | _, [] => []
  | prevWs, c :: cs =>
    if isWs c then
      if prevWs then collapseWsA true cs else ' ' :: collapseWsA true cs
    else c :: collapseWsA false cs

/-- Step 4 of `clean_and_extract_sql`: the substitution replacing every
run of one or more whitespace characters by a single space. -/
def collapseWs (l : List Char) : List Char := collapseWsA false l

/-- Python `content.split('\n')` on character lists. -/
def splitNl : List Char → List (List Char)
  | [] => [[]]
  | c :: cs =>
    match splitNl cs with
    | [] => []
    | h :: t => if c = '\n' then [] :: h :: t else (c :: h) :: t

/-- Python `' '.join(sql_lines)`. -/
def joinSpace (ls : List (List Char)) : List Char := List.intercalate [' '] ls

/-- Whether the list contains two adjacent whitespace characters. -/
def hasDoubleWs : List Char → Bool
  | c :: d :: rest => (isWs c && isWs d) || hasDoubleWs (d :: rest)
  | _ => false

/-- Substring containment, the Python `pat in l` test on strings. -/
def hasInfix (pat : List Char) : List Char → Bool
  | [] => pat.isEmpty
  | c :: cs => pat.isPrefixOf (c :: cs) || hasInfix pat cs

def thinkOpen : List Char := "<think>".toList

def thinkClose : List Char := "</think>".toList

/-- Rest of the input strictly after the first closing reasoning tag,
if one occurs. -/
def restAfterClose : List Char → Option (List Char)
  | [] => none
  | c :: cs =>
    if thinkClose.isPrefixOf (c :: cs) then some ((c :: cs).drop 8)
    else restAfterClose cs

/-- Step 1 of `clean_and_extract_sql`: the substitution deleting every
non-greedy reasoning block (DOTALL).  Fuelled; each step consumes at
least one character, so fuel equal to the input length is exact. -/
def removeThinkF : Nat → List Char → List Char
  | 0, l => l
  | _ + 1, [] => []
  | fuel + 1, c :: cs =>
    if thinkOpen.isPrefixOf (c :: cs) then
      match restAfterClose ((c :: cs).drop 7) with
      | some r => removeThinkF fuel r
      | none => c :: removeThinkF fuel cs
    else c :: removeThinkF fuel cs

def removeThink (l : List Char) : List Char := removeThinkF l.length l

/-- Drops a single leading newline, the `\n?` tail of the fence patterns. -/
def dropOptNl : List Char → List Char
  | '\n' :: cs => cs
  | l => l

/-- Step 2 of `clean_and_extract_sql`, fence removal: the substitution
deleting a literal pattern followed by an optional newline. -/
def removePatNlF (pat : List Char) : Nat → List Char → List Char
  | 0, l => l
  | _ + 1, [] => []
  | fuel + 1, c :: cs =>
    if pat.isPrefixOf (c :: cs) then
      removePatNlF pat fuel (dropOptNl ((c :: cs).drop pat.length))
    else c :: removePatNlF pat fuel cs

def removeFenceSql (l : List Char) : List Char :=
  removePatNlF "```sql".toList l.length l

def removeFence (l : List Char) : List Char :=
  removePatNlF "```".toList l.length l

/-- Case-insensitive literal match at the head of the input (the label
patterns carry the IGNORECASE flag); `pat` is given lower-cased. -/
def ciPrefix (pat : List Char) (l : List Char) : Bool :=
  pat.isPrefixOf (l.map Char.toLower)

/-- Match of the label pattern of `sql query:` at a line start.  Returns
the rest of the input after the match together with whether the last
consumed character was a newline (deciding whether the next position is
again a line start for the MULTILINE anchor). -/
def matchLabel1 (l : List Char) : Option (List Char × Bool) :=
  if ciPrefix "sql".toList l then
    let r1 := (l.drop 3).dropWhile isWs
    if ciPrefix "query:".toList r1 then
      let r2 := r1.drop 6
      some (r2.dropWhile isWs, (r2.takeWhile isWs).getLast? == some '\n')
    else none
  else none

/-- Match of the label pattern of `sql:` at a line start. -/
def matchLabel2 (l : List Char) : Option (List Char × Bool) :=
  if ciPrefix "sql:".toList l then
    let r2 := l.drop 4
    some (r2.dropWhile isWs, (r2.takeWhile isWs).getLast? == some '\n')
  else none

/-- MULTILINE anchored substitution: the matcher is tried exactly at the
string start and directly after each newline of the original input. -/
def removeLabelF (mtch : List Char → Option (List Char × Bool)) :
    Nat → Bool → List Char → List Char
  | 0, _, l => l
  | _ + 1, _, [] => []
  | fuel + 1, atStart, c :: cs =>
    if atStart then
      match mtch (c :: cs) with
      | some (r, f) => removeLabelF mtch fuel f r
      | none => c :: removeLabelF mtch fuel (c == '\n') cs
    else c :: removeLabelF mtch fuel (c == '\n') cs

def removeLabel1 (l : List Char) : List Char :=
  removeLabelF matchLabel1 l.length true l

def removeLabel2 (l : List Char) : List Char :=
  removeLabelF matchLabel2 l.length true l

/-- Steps 1 and 2 of `clean_and_extract_sql`: reasoning blocks, markdown
fences and leading `sql` labels are removed, in source order. -/
def cleanList (c : List Char) : List Char :=
  removeLabel2 (removeLabel1 (removeFence (removeFenceSql (removeThink c))))

/-- Characters of the input up to and including its first semicolon. -/
def takeThroughSemi : List Char → Option (List Char)
  | [] => none
  | c :: cs =>
    if c = ';' then some [c]
    else (takeThroughSemi cs).map (fun t => c :: t)

/-- The SELECT-through-semicolon regex (case-insensitive, DOTALL) matched
at the head of the input: six characters upper-casing to `SELECT`, one
whitespace character, then minimally up to the first semicolon. -/
def matchSelectAt (l : List Char) : Option (List Char) :=
  match l with
  | a :: b :: c :: d :: e :: f :: g :: rest =>
    if ([a, b, c, d, e, f].map Char.toUpper == "SELECT".toList) && isWs g then
      (takeThroughSemi rest).map (fun t => a :: b :: c :: d :: e :: f :: g :: t)
    else none
  | _ => none

/-- Extraction strategy 1: leftmost match of the complete
`SELECT ... ;` pattern. -/
def strat1 : List Char → Option (List Char)
  | [] => none
  | c :: cs =>
    match matchSelectAt (c :: cs) with
    | some m => some m
    | none => strat1 cs

/-- Python `line.upper().startswith('SELECT')`. -/
def startsSelect (l : List Char) : Bool :=
  "SELECT".toList.isPrefixOf (l.map Char.toUpper)

/-- The stripped non-empty lines of the content. -/
def linesOf (c : List Char) : List (List Char) :=
  ((splitNl c).map stripChars).filter (fun l => !l.isEmpty)

/-- The capture loop of strategy 2: lines are appended from the start of
capture until one ends with a semicolon (inclusive) or the lines end. -/
def captureFrom : List (List Char) → List (List Char)
  | [] => []
  | l :: ls => if l.getLast? == some ';' then [l] else l :: captureFrom ls

/-- Extraction strategy 2: line-by-line capture starting at the first
line whose upper-cased form starts with `SELECT`. -/
def strat2 (lns : List (List Char)) : Option (List Char) :=
  match lns.dropWhile (fun l => !startsSelect l) with
  | [] => none
  | l :: ls => some (joinSpace (captureFrom (l :: ls)))

/-- Extraction strategy 3: the first line containing `SELECT` in any
case. -/
def strat3 (lns : List (List Char)) : Option (List Char) :=
  lns.find? (fun l => hasInfix "SELECT".toList (l.map Char.toUpper))

/-- Step 3 of `clean_and_extract_sql`: the three extraction strategies
in order, falling back to the whole stripped content. -/
def extractedRaw (c : List Char) : List Char :=
  match strat1 c with
  | some m => m
  | none =>
    match strat2 (linesOf c) with
    | some m => m
    | none =>
      match strat3 (linesOf c) with
      | some m => m
      | none => stripChars c

/-- Removal of one trailing period, when present. -/
def dropDot (e : List Char) : List Char :=
  if e.getLast? == some '.' then e.dropLast else e

/-- Appending a semicolon unless one already ends the statement. -/
def ensureSemi (e : List Char) : List Char :=
  if e.getLast? == some ';' then e else e ++ [';']

/-- Step 4 of `clean_and_extract_sql`: strip, collapse whitespace runs,
drop one trailing period, and ensure a trailing semicolon. -/
def finalizeList (e : List Char) : List Char :=
  ensureSemi (dropDot (collapseWs (stripChars e)))

def cleanExtractList (c : List Char) : List Char :=
  finalizeList (extractedRaw (cleanList c))

/-- `SQLQueryValidator.clean_and_extract_sql` of `graph.py`. -/
def clean_and_extract_sql (v : String) : String :=
  ⟨cleanExtractList v.toList⟩

/-- `SQLQueryValidator.must_be_select_query` of `graph.py`:
`v.upper().startswith("SELECT")` or an error. -/
def must_be_select_query (v : String) : Except String String :=
  if "SELECT".toList.isPrefixOf (v.toList.map Char.toUpper) then Except.ok v
  else Except.error "Only SELECT queries are allowed"

/-- The fixed denylist of `check_prohibited_keywords`. -/
def prohibitedKeywords : List String :=
  ["INSERT", "UPDATE", "DELETE", "DROP", "ALTER", "CREATE",
   "TRUNCATE", "REPLACE", "MERGE", "GRANT", "REVOKE"]

/-- `SQLQueryValidator.check_prohibited_keywords` of `graph.py`: a
substring scan of the upper-cased statement against the denylist, in
list order. -/
def check_prohibited_keywords (v : String) : Except String String :=
  match prohibitedKeywords.find?
      (fun k => hasInfix k.toList (v.toList.map Char.toUpper)) with
  | some k => Except.error ("Prohibited SQL operation detected: " ++ k)
  | none => Except.ok v

/-- The two validation passes applied to an already extracted candidate
statement, in pydantic order. -/
def validateCandidate (v : String) : Except String String :=
  (must_be_select_query v).bind check_prohibited_keywords

/-- The whole `SQLQueryValidator`: extraction followed by validation. -/
def sqlQueryValidator (raw : String) : Except String String :=
  validateCandidate (clean_and_extract_sql raw)

/-- `NL2SQLState` of `src/state_schema.py`; `error_message = ""` models
the absent/falsy error, rows are modelled as association lists. -/
structure NL2SQLState where
  question : String
  sql_dialect : String
  db_schema : String
  relevant_tables : List String
  sql_query : String
  query_results : List (List (String × String))
  formatted_response : String
  explanation : String
  error_message : String
  chat_history : List (String × String)
deriving DecidableEq, Repr

/-- `analyze_schema` of `graph.py`; `hasDb` models `db_connection.db`
truthiness, `schemaInfo` the outcome of `get_schema_info()`. -/
def analyze_schema (hasDb : Bool) (schemaInfo : Except String String)
    (s : NL2SQLState) : NL2SQLState :=
  if !hasDb then { s with error_message := "No database connection established" }
  else
    match schemaInfo with
    | .ok info => { s with db_schema := info }
    | .error e => { s with error_message := "Error analyzing schema: " ++ e }

/-- `select_relevant_tables` of `graph.py`; `llm` models the structured
table-selection call.  Note: there is no error-message check. -/
def select_relevant_tables (llm : Except String (List String))
    (s : NL2SQLState) : NL2SQLState :=
  match llm with
  | .ok ts => { s with relevant_tables := ts }
  | .error e => { s with error_message := "Error selecting tables: " ++ e }

/-- `generate_sql` of `graph.py`; `llm` models the raw structured-output
payload handed to `SQLQueryValidator`.  A validation error raises inside
`chain.invoke` and is caught by the same handler. -/
def generate_sql (llm : Except String String) (s : NL2SQLState) : NL2SQLState :=
  match llm with
  | .error e => { s with error_message := "Error generating SQL: " ++ e }
  | .ok raw =>
    match sqlQueryValidator raw with
    | .ok sql => { s with sql_query := sql }
    | .error ve => { s with error_message := "Error generating SQL: " ++ ve }

/-- `execute_query` of `graph.py`; `hasEngine` models
`db_connection.engine` truthiness and `db` the query round-trip.
Note: there is no error-message check before the guards. -/
def execute_query (hasEngine : Bool)
    (db : Except String (List (List (String × String))))
    (s : NL2SQLState) : NL2SQLState :=
  if !hasEngine then { s with error_message := "No database connection available" }
  else if s.sql_query = "" then { s with error_message := "No SQL query to execute" }
  else
    match db with
    | .ok rows => { s with query_results := rows }
    | .error e =>
      { s with error_message := "Unexpected error during query execution: " ++ e }

/-- `format_results` of `graph.py`; `render` models the dataframe
rendering `df.to_string(index=False, max_rows=25)` and `llm` the
formatting model call, both raising into the same handler. -/
def format_results (render llm : Except String String)
    (s : NL2SQLState) : NL2SQLState :=
  if s.error_message ≠ "" then s
  else if s.query_results = [] then
    { s with formatted_response := "No results found for your query." }
  else
    match render.bind (fun _ => llm) with
    | .ok resp => { s with formatted_response := ⟨stripChars resp.toList⟩ }
    | .error e => { s with error_message := "Error formatting results: " ++ e }

/-- `explain_query` of `graph.py`. -/
def explain_query (llm : Except String String) (s : NL2SQLState) : NL2SQLState :=
  if s.error_message ≠ "" then s
  else
    match llm with
    | .ok e => { s with explanation := ⟨stripChars e.toList⟩ }
    | .error e => { s with error_message := "Error generating explanation: " ++ e }

/-- The `NL2SQLState` TypedDict of `chain.py` (field `formatted_results`,
extra field `context`). -/
structure SQLChainState where
  question : String
  db_schema : String
  relevant_tables : List String
  sql_query : String
  query_results : List (List (String × String))
  formatted_results : String
  explanation : String
  error_message : String
  context : String
deriving DecidableEq, Repr

/-- The basic table block of the success path of
`SQLChain._format_results` (`max_rows=20` preview). -/
def basicFormat (n : Nat) (t : String) : String :=
  let base := "Query returned " ++ toString n ++ " row(s):\n\n" ++ t
  if 20 < n then
    base ++ "\n\n... (showing first 20 of " ++ toString n ++ " results)"
  else base

/-- The deterministic fallback rendering of `SQLChain._format_results`
(`max_rows=50`). -/
def fallbackRender (n : Nat) (t : String) : String :=
  let base := "Query returned " ++ toString n ++ " row(s):\n\n" ++ t
  if 50 < n then
    base ++ "\n\n... (showing first 50 of " ++ toString n ++ " results)"
  else base

/-- `SQLChain._format_results` of `chain.py`; `render20` and `render50`
model the two dataframe renderings, `llm` the formatting call. -/
def SQLChain_format_results (render20 llm render50 : Except String String)
    (s : SQLChainState) : SQLChainState :=
  if s.error_message ≠ "" then s
  else if s.query_results = [] then
    { s with formatted_results := "No results found for your query." }
  else
    match render20.bind (fun raw => llm.map (fun fr => (raw, fr))) with
    | .ok (raw, fr) =>
      { s with formatted_results :=
          fr ++ "\n\n--- Raw Results ---\n" ++ basicFormat s.query_results.length raw }
    | .error _ =>
      match render50 with
      | .ok t => { s with formatted_results := fallbackRender s.query_results.length t }
      | .error fe => { s with error_message := "Error formatting results: " ++ fe }

/-- A statement is canonical in the sense of the specification: it
starts with `SELECT` and a space, is whitespace-normalized, and carries
exactly one semicolon, at its end. -/
def canonicalSelect (s : String) : Bool :=
  "SELECT ".toList.isPrefixOf s.toList &&
  s.toList.getLast? == some ';' &&
  s.toList.count ';' == 1 &&
  collapseWs s.toList == s.toList

/-! ### Helper lemmas -/

theorem hasInfix_iff (pat l : List Char) : hasInfix pat l = true ↔ pat <:+: l := by
  induction l with
  | nil =>
    simp [hasInfix, List.isEmpty_iff, List.infix_nil]
  | cons c cs ih =>
    simp only [hasInfix, Bool.or_eq_true, List.isPrefixOf_iff_prefix, ih,
      List.infix_cons_iff]

theorem hasInfix_eq_false (pat l : List Char) :
    hasInfix pat l = false ↔ ¬ pat <:+: l := by
  rw [← hasInfix_iff]; cases hasInfix pat l <;> simp

theorem collapseWsA_cons_ws_true {c : Char} {cs : List Char}
    (h : isWs c = true) : collapseWsA true (c :: cs) = collapseWsA true cs := by
  simp [collapseWsA, h]

theorem collapseWsA_cons_ws_false {c : Char} {cs : List Char}
    (h : isWs c = true) :
    collapseWsA false (c :: cs) = ' ' :: collapseWsA true cs := by
  simp [collapseWsA, h]

theorem collapseWsA_cons_not_ws (b : Bool) {c : Char} {cs : List Char}
    (h : isWs c = false) :
    collapseWsA b (c :: cs) = c :: collapseWsA false cs := by
  simp [collapseWsA, h]

theorem dropWhile_cons_of_neg {p : Char → Bool} {a : Char} {l : List Char}
    (h : p a = false) : List.dropWhile p (a :: l) = a :: l := by
  simp [List.dropWhile_cons, h]

theorem stripChars_sub (l : List Char) : stripChars l <:+: l := by
  unfold stripChars
  have h1 : l.dropWhile isWs <:+ l := List.dropWhile_suffix isWs
  have h2 : ((l.dropWhile isWs).reverse.dropWhile isWs).reverse <+:
      (l.dropWhile isWs).reverse.reverse :=
    List.reverse_prefix.mpr (List.dropWhile_suffix isWs)
  rw [List.reverse_reverse] at h2
  exact h2.isInfix.trans h1.isInfix

theorem stripChars_eq_self (l : List Char) (c₀ cₙ : Char)
    (hh : l.head? = some c₀) (hw : isWs c₀ = false)
    (hl : l.getLast? = some cₙ) (hlw : isWs cₙ = false) :
    stripChars l = l := by
  cases l with
  | nil => simp at hh
  | cons a as =>
    have ha : a = c₀ := by simpa using hh
    subst ha
    unfold stripChars
    rw [dropWhile_cons_of_neg hw]
    have hrev : (a :: as).reverse.head? = some cₙ := by
      rw [List.head?_reverse]; exact hl
    cases hr : (a :: as).reverse with
    | nil => simp [hr] at hrev
    | cons b bs =>
      have hb : b = cₙ := by rw [hr] at hrev; simpa using hrev
      subst hb
      rw [dropWhile_cons_of_neg hlw, ← hr, List.reverse_reverse]

theorem mem_collapseWsA (b : Bool) (l : List Char) (c : Char)
    (h : c ∈ collapseWsA b l) : isWs c = false ∨ c = ' ' := by
  induction l generalizing b with
  | nil => simp [collapseWsA] at h
  | cons a as ih =>
    cases ha : isWs a with
    | true =>
      cases b with
      | true =>
        rw [collapseWsA_cons_ws_true ha] at h
        exact ih _ h
      | false =>
        rw [collapseWsA_cons_ws_false ha] at h
        rcases List.mem_cons.mp h with h | h
        · exact Or.inr h
        · exact ih _ h
    | false =>
      rw [collapseWsA_cons_not_ws b ha] at h
      rcases List.mem_cons.mp h with h | h
      · subst h; exact Or.inl ha
      · exact ih _ h

theorem head_collapseWsA_true (l : List Char) (h : Char)
    (hh : (collapseWsA true l).head? = some h) : isWs h = false := by
  induction l with
  | nil => simp [collapseWsA] at hh
  | cons a as ih =>
    cases ha : isWs a with
    | true =>
      rw [collapseWsA_cons_ws_true ha] at hh
      exact ih hh
    | false =>
      rw [collapseWsA_cons_not_ws true ha] at hh
      simp only [List.head?_cons, Option.some.injEq] at hh
      subst hh; exact ha

theorem hasDoubleWs_collapseWsA (b : Bool) (l : List Char) :
    hasDoubleWs (collapseWsA b l) = false := by
  induction l generalizing b with
  | nil => simp [collapseWsA, hasDoubleWs]
  | cons a as ih =>
    cases ha : isWs a with
    | true =>
      cases b with
      | true => rw [collapseWsA_cons_ws_true ha]; exact ih true
      | false =>
        rw [collapseWsA_cons_ws_false ha]
        cases hx : collapseWsA true as with
        | nil => simp [hasDoubleWs]
        | cons h t =>
          have hhw : isWs h = false :=
            head_collapseWsA_true as h (by rw [hx]; rfl)
          have hrec := ih true
          rw [hx] at hrec
          simp [hasDoubleWs, hhw, hrec]
    | false =>
      rw [collapseWsA_cons_not_ws b ha]
      cases hx : collapseWsA false as with
      | nil => simp [hasDoubleWs]
      | cons h t =>
        have hrec := ih false
        rw [hx] at hrec
        simp [hasDoubleWs, ha, hrec]

theorem prefix_collapseWsA_false (pat : List Char)
    (hp : ∀ c ∈ pat, isWs c = false) :
    ∀ l : List Char, pat <+: collapseWsA false l → pat <+: l := by
  induction pat with
  | nil => intro l _; exact List.nil_prefix
  | cons p ps ih =>
    intro l hpre
    cases l with
    | nil =>
      simp only [collapseWsA] at hpre
      simp at hpre
    | cons a as =>
      cases ha : isWs a with
      | true =>
        rw [collapseWsA_cons_ws_false ha, List.cons_prefix_cons] at hpre
        obtain ⟨hps, -⟩ := hpre
        have hpw := hp p (List.mem_cons_self p ps)
        rw [hps] at hpw
        simp [isWs] at hpw
      | false =>
        rw [collapseWsA_cons_not_ws false ha, List.cons_prefix_cons] at hpre
        obtain ⟨hpa, hrest⟩ := hpre
        rw [List.cons_prefix_cons]
        exact ⟨hpa, ih (fun c hc => hp c (List.mem_cons_of_mem p hc)) as hrest⟩

theorem infix_collapseWsA (pat : List Char)
    (hp : ∀ c ∈ pat, isWs c = false) :
    ∀ (l : List Char) (b : Bool), pat <:+: collapseWsA b l → pat <:+: l := by
  intro l
  induction l with
  | nil =>
    intro b h
    simpa [collapseWsA] using h
  | cons a as ih =>
    intro b h
    cases ha : isWs a with
    | true =>
      cases b with
      | true =>
        rw [collapseWsA_cons_ws_true ha] at h
        exact List.infix_cons (ih true h)
      | false =>
        rw [collapseWsA_cons_ws_false ha] at h
        rcases List.infix_cons_iff.mp h with h | h
        · cases pat with
          | nil => exact List.nil_infix
          | cons p ps =>
            rw [List.cons_prefix_cons] at h
            obtain ⟨hps, -⟩ := h
            have hpw := hp p (List.mem_cons_self p ps)
            rw [hps] at hpw
            simp [isWs] at hpw
        · exact List.infix_cons (ih true h)
    | false =>
      rw [collapseWsA_cons_not_ws b ha] at h
      rcases List.infix_cons_iff.mp h with h | h
      · cases pat with
        | nil => exact List.nil_infix
        | cons p ps =>
          rw [List.cons_prefix_cons] at h
          obtain ⟨hpa, hrest⟩ := h
          have hps : ps <+: as :=
            prefix_collapseWsA_false ps
              (fun c hc => hp c (List.mem_cons_of_mem p hc)) as hrest
          exact (List.cons_prefix_cons.mpr ⟨hpa, hps⟩).isInfix
      · exact List.infix_cons (ih false h)

theorem hasDoubleWs_cons_cons (c d : Char) (r : List Char) :
    hasDoubleWs (c :: d :: r) = ((isWs c && isWs d) || hasDoubleWs (d :: r)) :=
  rfl

theorem hasDoubleWs_pair (a b : List Char) (c d : Char)
    (hc : isWs c = true) (hd : isWs d = true) :
    hasDoubleWs (a ++ c :: d :: b) = true := by
  induction a with
  | nil => simp [hasDoubleWs_cons_cons, hc, hd]
  | cons x xs ih =>
    cases xs with
    | nil => simp [hasDoubleWs_cons_cons, hc, hd, ih]
    | cons y ys => simp [hasDoubleWs_cons_cons]; right; exact ih

theorem hasDoubleWs_append_left (a b : List Char)
    (h : hasDoubleWs a = true) : hasDoubleWs (a ++ b) = true := by
  induction a with
  | nil => simp [hasDoubleWs] at h
  | cons x xs ih =>
    cases xs with
    | nil => simp [hasDoubleWs] at h
    | cons y ys =>
      rw [hasDoubleWs_cons_cons] at h
      rcases Bool.or_eq_true_iff.mp h with h | h
      · simpa [hasDoubleWs_cons_cons] using Or.inl h
      · have := ih h
        simpa [hasDoubleWs_cons_cons] using Or.inr this

theorem hasDoubleWs_dropLast (l : List Char)
    (h : hasDoubleWs l = false) : hasDoubleWs l.dropLast = false := by
  by_contra hc
  have hc' : hasDoubleWs l.dropLast = true := by
    cases hx : hasDoubleWs l.dropLast
    · exact absurd hx hc
    · rfl
  cases hl : l.getLast? with
  | none =>
    have : l = [] := by
      cases l with
      | nil => rfl
      | cons x xs => simp [List.getLast?_eq_getLast] at hl
    subst this
    simp [hasDoubleWs] at hc'
  | some a =>
    have hdecomp : l.dropLast ++ [a] = l := List.dropLast_append_getLast? a hl
    have hfull := hasDoubleWs_append_left l.dropLast [a] hc'
    rw [hdecomp] at hfull
    rw [h] at hfull
    exact Bool.false_ne_true hfull

theorem hasDoubleWs_concat (l : List Char) (c : Char)
    (h : hasDoubleWs l = false) (hc : isWs c = false) :
    hasDoubleWs (l ++ [c]) = false := by
  induction l with
  | nil => simp [hasDoubleWs]
  | cons x xs ih =>
    cases xs with
    | nil => simp [hasDoubleWs_cons_cons, hasDoubleWs, hc]
    | cons y ys =>
      rw [hasDoubleWs_cons_cons] at h
      rcases Bool.or_eq_false_iff.mp h with ⟨h1, h2⟩
      have := ih h2
      simpa [hasDoubleWs_cons_cons, h1] using this

theorem hasDoubleWs_dropDot (e : List Char)
    (h : hasDoubleWs e = false) : hasDoubleWs (dropDot e) = false := by
  unfold dropDot
  by_cases hdot : (e.getLast? == some '.') = true
  · simp only [hdot, if_true]
    exact hasDoubleWs_dropLast e h
  · simp only [hdot, if_false]
    exact h

theorem hasDoubleWs_ensureSemi (e : List Char)
    (h : hasDoubleWs e = false) : hasDoubleWs (ensureSemi e) = false := by
  unfold ensureSemi
  by_cases hsemi : (e.getLast? == some ';') = true
  · simp only [hsemi, if_true]; exact h
  · simp only [hsemi, if_false]
    exact hasDoubleWs_concat _ ';' h (by decide)

theorem hasDoubleWs_finalizeList (e : List Char) :
    hasDoubleWs (finalizeList e) = false := by
  unfold finalizeList
  exact hasDoubleWs_ensureSemi _
    (hasDoubleWs_dropDot _ (hasDoubleWs_collapseWsA false (stripChars e)))

theorem ensureSemi_getLast (e : List Char) :
    (ensureSemi e).getLast? = some ';' := by
  unfold ensureSemi
  by_cases hsemi : (e.getLast? == some ';') = true
  · simp only [hsemi, if_true]
    exact beq_iff_eq.mp hsemi
  · simp only [hsemi, if_false]
    exact List.getLast?_concat _

theorem finalizeList_getLast (e : List Char) :
    (finalizeList e).getLast? = some ';' := by
  unfold finalizeList
  exact ensureSemi_getLast _

theorem infix_append_singleton (pat l : List Char) (c : Char)
    (h : pat <:+: l ++ [c]) (hc : c ∉ pat) : pat <:+: l := by
  obtain ⟨s, t, hst⟩ := h
  rcases List.eq_nil_or_concat t with ht | ⟨t', x, ht⟩
  · subst ht
    rcases List.eq_nil_or_concat pat with hp | ⟨p', y, hp⟩
    · subst hp; exact List.nil_infix
    · subst hp
      simp only [List.append_nil, List.concat_eq_append,
        ← List.append_assoc] at hst
      have hy := congrArg List.getLast? hst
      rw [List.getLast?_concat, List.getLast?_concat] at hy
      have hyc : y = c := by simpa using hy
      subst hyc
      simp [List.concat_eq_append] at hc
  · subst ht
    simp only [List.concat_eq_append, ← List.append_assoc] at hst
    have hdl := congrArg List.dropLast hst
    rw [List.dropLast_concat, List.dropLast_concat] at hdl
    exact ⟨s, t', hdl⟩

theorem prefix_collapse_map (pat : List Char)
    (hp : ∀ c ∈ pat, isWs c = false) :
    ∀ l : List Char, pat <+: (collapseWsA false l).map Char.toUpper →
      pat <+: l.map Char.toUpper := by
  induction pat with
  | nil => intro l _; exact List.nil_prefix
  | cons p ps ih =>
    intro l hpre
    cases l with
    | nil => simp [collapseWsA] at hpre
    | cons a as =>
      cases ha : isWs a with
      | true =>
        rw [collapseWsA_cons_ws_false ha, List.map_cons,
          (by decide : Char.toUpper ' ' = ' '), List.cons_prefix_cons] at hpre
        obtain ⟨hps, -⟩ := hpre
        have hpw := hp p (List.mem_cons_self p ps)
        rw [hps] at hpw
        simp [isWs] at hpw
      | false =>
        rw [collapseWsA_cons_not_ws false ha, List.map_cons,
          List.cons_prefix_cons] at hpre
        obtain ⟨hpa, hrest⟩ := hpre
        rw [List.map_cons, List.cons_prefix_cons]
        exact ⟨hpa, ih (fun c hc => hp c (List.mem_cons_of_mem p hc)) as hrest⟩

theorem infix_collapse_map (pat : List Char)
    (hp : ∀ c ∈ pat, isWs c = false) :
    ∀ (l : List Char) (b : Bool), pat <:+: (collapseWsA b l).map Char.toUpper →
      pat <:+: l.map Char.toUpper := by
  intro l
  induction l with
  | nil =>
    intro b h
    simpa [collapseWsA] using h
  | cons a as ih =>
    intro b h
    rw [List.map_cons]
    cases ha : isWs a with
    | true =>
      cases b with
      | true =>
        rw [collapseWsA_cons_ws_true ha] at h
        exact List.infix_cons (ih true h)
      | false =>
        rw [collapseWsA_cons_ws_false ha, List.map_cons,
          (by decide : Char.toUpper ' ' = ' ')] at h
        rcases List.infix_cons_iff.mp h with h | h
        · cases pat with
          | nil => exact List.nil_infix
          | cons p ps =>
            rw [List.cons_prefix_cons] at h
            obtain ⟨hps, -⟩ := h
            have hpw := hp p (List.mem_cons_self p ps)
            rw [hps] at hpw
            simp [isWs] at hpw
        · exact List.infix_cons (ih true h)
    | false =>
      rw [collapseWsA_cons_not_ws b ha, List.map_cons] at h
      rcases List.infix_cons_iff.mp h with h | h
      · cases pat with
        | nil => exact List.nil_infix
        | cons p ps =>
          rw [List.cons_prefix_cons] at h
          obtain ⟨hpa, hrest⟩ := h
          have hps : ps <+: as.map Char.toUpper :=
            prefix_collapse_map ps
              (fun c hc => hp c (List.mem_cons_of_mem p hc)) as hrest
          exact (List.cons_prefix_cons.mpr ⟨hpa, hps⟩).isInfix
      · exact List.infix_cons (ih false h)

theorem infix_finalize_map (pat e : List Char)
    (hpw : ∀ c ∈ pat, isWs c = false) (hsemi : ';' ∉ pat)
    (h : pat <:+: (finalizeList e).map Char.toUpper) :
    pat <:+: e.map Char.toUpper := by
  unfold finalizeList ensureSemi dropDot at h
  set y := collapseWs (stripChars e) with hy
  have step1 : pat <:+: (if y.getLast? == some '.' then y.dropLast else y).map
      Char.toUpper := by
    by_cases hs : ((if y.getLast? == some '.' then y.dropLast else y).getLast?
        == some ';') = true
    · rwa [if_pos hs] at h
    · rw [if_neg hs, List.map_append] at h
      have : (List.map Char.toUpper [';']) = [';'] := by decide
      rw [this] at h
      exact infix_append_singleton _ _ _ h hsemi
  have step2 : pat <:+: y.map Char.toUpper := by
    by_cases hd : (y.getLast? == some '.') = true
    · rw [if_pos hd, List.map_dropLast] at step1
      exact step1.trans (List.dropLast_prefix _).isInfix
    · rwa [if_neg hd] at step1
  have step3 : pat <:+: (stripChars e).map Char.toUpper :=
    infix_collapse_map pat hpw (stripChars e) false step2
  exact step3.trans (List.IsInfix.map Char.toUpper (stripChars_sub e))

theorem matchSelectAt_some_sel (l m : List Char)
    (h : matchSelectAt l = some m) : "SELECT".toList <+: l.map Char.toUpper := by
  match l with
  | [] | [_] | [_, _] | [_, _, _] | [_, _, _, _] | [_, _, _, _, _]
  | [_, _, _, _, _, _] => simp [matchSelectAt] at h
  | a :: b :: c :: d :: e :: f :: g :: rest =>
    rw [matchSelectAt] at h
    by_cases hcond :
        (([a, b, c, d, e, f].map Char.toUpper == "SELECT".toList) && isWs g)
          = true
    · have h6 : [a, b, c, d, e, f].map Char.toUpper = "SELECT".toList :=
        beq_iff_eq.mp (Bool.and_eq_true_iff.mp hcond).1
      have hdecomp : (a :: b :: c :: d :: e :: f :: g :: rest).map Char.toUpper
          = [a, b, c, d, e, f].map Char.toUpper
            ++ (g :: rest).map Char.toUpper := by
        simp
      rw [hdecomp, h6]
      exact List.prefix_append _ _
    · rw [if_neg hcond] at h
      simp at h

theorem strat1_some_select : ∀ l m : List Char, strat1 l = some m →
    "SELECT".toList <:+: l.map Char.toUpper := by
  intro l
  induction l with
  | nil => intro m h; simp [strat1] at h
  | cons c cs ih =>
    intro m h
    rw [strat1] at h
    cases hm : matchSelectAt (c :: cs) with
    | some m' => exact (matchSelectAt_some_sel _ _ hm).isInfix
    | none =>
      rw [hm] at h
      rw [List.map_cons]
      exact List.infix_cons (ih m h)

theorem splitNl_shape : ∀ l : List Char, ∃ h t, splitNl l = h :: t ∧
    h <+: l ∧ ∀ m ∈ t, m <:+: l := by
  intro l
  induction l with
  | nil => exact ⟨[], [], rfl, List.nil_prefix, by simp⟩
  | cons c cs ih =>
    obtain ⟨h, t, hs, hp, ht⟩ := ih
    by_cases hc : c = '\n'
    · subst hc
      refine ⟨[], h :: t, ?_, List.nil_prefix, ?_⟩
      · rw [splitNl, hs]; simp
      · intro m hm
        rcases List.mem_cons.mp hm with hm | hm
        · subst hm; exact List.infix_cons hp.isInfix
        · exact List.infix_cons (ht m hm)
    · refine ⟨c :: h, t, ?_, List.cons_prefix_cons.mpr ⟨rfl, hp⟩, ?_⟩
      · rw [splitNl, hs]; simp [hc]
      · intro m hm; exact List.infix_cons (ht m hm)

theorem mem_splitNl_sub (l m : List Char) (hm : m ∈ splitNl l) :
    m <:+: l := by
  obtain ⟨h, t, hs, hp, ht⟩ := splitNl_shape l
  rw [hs] at hm
  rcases List.mem_cons.mp hm with hm | hm
  · subst hm; exact hp.isInfix
  · exact ht m hm

theorem mem_linesOf_sub (c m : List Char) (hm : m ∈ linesOf c) :
    m <:+: c := by
  unfold linesOf at hm
  have hm' := List.mem_of_mem_filter hm
  obtain ⟨m', hm'', rfl⟩ := List.mem_map.mp hm'
  exact (stripChars_sub m').trans (mem_splitNl_sub c m' hm'')

theorem takeThroughSemi_concat (body rest : List Char) (hb : ';' ∉ body) :
    takeThroughSemi (body ++ ';' :: rest) = some (body ++ [';']) := by
  induction body with
  | nil => simp [takeThroughSemi]
  | cons c cs ih =>
    have hc : ¬ (c = ';') := fun h => hb (h ▸ List.mem_cons_self c cs)
    have hcs : ';' ∉ cs := fun h => hb (List.mem_cons_of_mem c h)
    simp only [List.cons_append, takeThroughSemi, if_neg hc]
    rw [List.append_eq, ih hcs]
    rfl

theorem hasInfix_cons_eq (pat : List Char) (c : Char) (cs : List Char) :
    hasInfix pat (c :: cs) = (pat.isPrefixOf (c :: cs) || hasInfix pat cs) :=
  rfl

theorem hasInfix_of_prefix (pat l : List Char) (h : pat <+: l)
    (hne : l ≠ []) : hasInfix pat l = true := by
  cases l with
  | nil => exact absurd rfl hne
  | cons c cs =>
    rw [hasInfix_cons_eq, List.isPrefixOf_iff_prefix.mpr h]
    rfl

theorem removeThinkF_eq_self : ∀ (fuel : Nat) (l : List Char),
    l.length ≤ fuel → hasInfix thinkOpen l = false →
    removeThinkF fuel l = l := by
  intro fuel
  induction fuel with
  | zero => intro l _ _; rfl
  | succ n ih =>
    intro l hlen hinf
    cases l with
    | nil => rfl
    | cons c cs =>
      rw [hasInfix_cons_eq] at hinf
      obtain ⟨h1, h2⟩ := Bool.or_eq_false_iff.mp hinf
      rw [removeThinkF, h1]
      simp only [Bool.false_eq_true, if_false]
      rw [ih cs (Nat.le_of_succ_le_succ (by simpa using hlen)) h2]

theorem removePatNlF_eq_self (pat₀ pat : List Char) (h0 : pat₀ <+: pat) :
    ∀ (fuel : Nat) (l : List Char), l.length ≤ fuel →
    hasInfix pat₀ l = false → removePatNlF pat fuel l = l := by
  intro fuel
  induction fuel with
  | zero => intro l _ _; rfl
  | succ n ih =>
    intro l hlen hinf
    cases l with
    | nil => rfl
    | cons c cs =>
      rw [hasInfix_cons_eq] at hinf
      obtain ⟨h1, h2⟩ := Bool.or_eq_false_iff.mp hinf
      have hpre : pat.isPrefixOf (c :: cs) = false := by
        cases hp : pat.isPrefixOf (c :: cs)
        · rfl
        · have := h0.trans (List.isPrefixOf_iff_prefix.mp hp)
          rw [List.isPrefixOf_iff_prefix.mpr this] at h1
          exact absurd h1 (by simp)
      rw [removePatNlF, hpre]
      simp only [Bool.false_eq_true, if_false]
      rw [ih cs (Nat.le_of_succ_le_succ (by simpa using hlen)) h2]

theorem removeLabelF_eq_self (mtch : List Char → Option (List Char × Bool)) :
    ∀ (fuel : Nat) (b : Bool) (l : List Char), l.length ≤ fuel →
    '\n' ∉ l → (b = true → mtch l = none) →
    removeLabelF mtch fuel b l = l := by
  intro fuel
  induction fuel with
  | zero => intro b l _ _ _; rfl
  | succ n ih =>
    intro b l hlen hnl hm
    cases l with
    | nil => rfl
    | cons c cs =>
      have hcnl : ¬ (c = '\n') := fun h => hnl (h ▸ List.mem_cons_self c cs)
      have hcsnl : '\n' ∉ cs := fun h => hnl (List.mem_cons_of_mem c h)
      have hbeq : (c == '\n') = false := by
        cases hx : c == '\n'
        · rfl
        · exact absurd (beq_iff_eq.mp hx) hcnl
      have hrec := ih false cs (Nat.le_of_succ_le_succ (by simpa using hlen))
        hcsnl (by intro hx; exact absurd hx (by simp))
      cases b with
      | true =>
        rw [removeLabelF, if_pos rfl, hm rfl, hbeq, hrec]
      | false =>
        rw [removeLabelF, if_neg (by simp), hbeq, hrec]

theorem mk_toList (l : List Char) : (String.mk l).toList = l := rfl

theorem clean_and_extract_sql_eq (v : String) :
    clean_and_extract_sql v = String.mk (cleanExtractList v.toList) := rfl

theorem string_append_ne_empty (a b : String) (h : a.data ≠ []) :
    a ++ b ≠ "" := by
  intro hc
  have hd := congrArg String.data hc
  rw [String.data_append] at hd
  exact h (List.append_eq_nil.mp hd).1

theorem validateCandidate_ok (v sql : String)
    (h : validateCandidate v = Except.ok sql) :
    sql = v ∧
    "SELECT".toList.isPrefixOf (v.toList.map Char.toUpper) = true ∧
    ∀ k ∈ prohibitedKeywords,
      hasInfix k.toList (v.toList.map Char.toUpper) = false := by
  unfold validateCandidate must_be_select_query at h
  by_cases hp : "SELECT".toList.isPrefixOf (v.toList.map Char.toUpper) = true
  · rw [if_pos hp] at h
    have h' : check_prohibited_keywords v = Except.ok sql := h
    unfold check_prohibited_keywords at h'
    cases hf : prohibitedKeywords.find?
        (fun k => hasInfix k.toList (v.toList.map Char.toUpper)) with
    | some k => rw [hf] at h'; cases h'
    | none =>
      rw [hf] at h'
      cases h'
      refine ⟨rfl, hp, ?_⟩
      intro k hk
      cases hx : hasInfix k.toList (v.toList.map Char.toUpper)
      · rfl
      · exact absurd hx (List.find?_eq_none.mp hf k hk)
  · rw [if_neg hp] at h
    have h' : (Except.error "Only SELECT queries are allowed"
        : Except String String) = Except.ok sql := h
    cases h'

theorem sqlQueryValidator_ok (raw sql : String)
    (h : sqlQueryValidator raw = Except.ok sql) :
    sql = clean_and_extract_sql raw ∧
    "SELECT".toList.isPrefixOf (sql.toList.map Char.toUpper) = true ∧
    ∀ k ∈ prohibitedKeywords,
      hasInfix k.toList (sql.toList.map Char.toUpper) = false := by
  unfold sqlQueryValidator at h
  obtain ⟨h1, h2, h3⟩ := validateCandidate_ok _ _ h
  subst h1
  exact ⟨rfl, h2, h3⟩

/-- C1: the claim's universal short-circuit fails at `execute_query`: a
state with a prior error and empty `sql_query` has its error overwritten
with "No SQL query to execute". -/
theorem C1_counterexample :
    (execute_query true (Except.ok [])
      ⟨"q", "", "", [], "", [], "", "", "Error generating SQL: boom", []⟩
      ).error_message = "No SQL query to execute" ∧
    ("Error generating SQL: boom" : String) ≠ "" ∧
    ("No SQL query to execute" : String) ≠ "Error generating SQL: boom" := by
  exact ⟨rfl, by decide, by decide⟩

/-- C1 (amended): only `format_results` and `explain_query` short-circuit
on a prior error and return the state unchanged; `select_relevant_tables`,
`generate_sql` and `execute_query` run regardless, and `execute_query`
overwrites a prior error with "No SQL query to execute" whenever
`sql_query` is empty, while a selection failure overwrites it with its
own message. -/
theorem C1_short_circuit_amended :
    (∀ (s : NL2SQLState) (render llm : Except String String),
      s.error_message ≠ "" → format_results render llm s = s) ∧
    (∀ (s : NL2SQLState) (llm : Except String String),
      s.error_message ≠ "" → explain_query llm s = s) ∧
    (∀ (s : NL2SQLState) (db : Except String (List (List (String × String)))),
      s.sql_query = "" →
      (execute_query true db s).error_message = "No SQL query to execute") ∧
    (∀ (s : NL2SQLState) (e : String),
      (select_relevant_tables (Except.error e) s).error_message
        = "Error selecting tables: " ++ e) := by
  refine ⟨?_, ?_, ?_, ?_⟩
  · intro s render llm h; simp [format_results, h]
  · intro s llm h; simp [explain_query, h]
  · intro s db h; simp [execute_query, h]
  · intro s e; simp [select_relevant_tables]

theorem C1_short_circuit_amended_witness :
    format_results (Except.ok "t") (Except.ok "r")
      ⟨"q", "", "", [], "", [], "", "", "E", []⟩
      = ⟨"q", "", "", [], "", [], "", "", "E", []⟩ ∧
    explain_query (Except.ok "r") ⟨"q", "", "", [], "", [], "", "", "E", []⟩
      = ⟨"q", "", "", [], "", [], "", "", "E", []⟩ ∧
    (execute_query true (Except.ok [])
      ⟨"q", "", "", [], "", [], "", "", "E", []⟩).error_message
      = "No SQL query to execute" ∧
    (select_relevant_tables (Except.error "x")
      ⟨"q", "", "", [], "", [], "", "", "E", []⟩).error_message
      = "Error selecting tables: " ++ "x" :=
  ⟨C1_short_circuit_amended.1 _ _ _ (by decide),
   C1_short_circuit_amended.2.1 _ _ (by decide),
   C1_short_circuit_amended.2.2.1 _ _ rfl,
   C1_short_circuit_amended.2.2.2 _ _⟩

/-- C2: whenever `generate_sql` stores a validated statement, its
upper-cased form starts with `SELECT` and contains none of the eleven
denylisted keywords as a substring; on a validation failure `sql_query`
stays empty and an error message is recorded instead. -/
theorem C2_generation_validation :
    ∀ (s : NL2SQLState) (raw : String), s.sql_query = "" →
    (∀ sql, sqlQueryValidator raw = Except.ok sql →
      generate_sql (Except.ok raw) s = { s with sql_query := sql } ∧
      "SELECT".toList.isPrefixOf (sql.toList.map Char.toUpper) = true ∧
      ∀ k ∈ prohibitedKeywords,
        hasInfix k.toList (sql.toList.map Char.toUpper) = false) ∧
    (∀ e, sqlQueryValidator raw = Except.error e →
      (generate_sql (Except.ok raw) s).sql_query = "" ∧
      (generate_sql (Except.ok raw) s).error_message ≠ "") := by
  intro s raw hsq
  constructor
  · intro sql hok
    obtain ⟨-, hpre, hkw⟩ := sqlQueryValidator_ok raw sql hok
    exact ⟨by simp [generate_sql, hok], hpre, hkw⟩
  · intro e herr
    have hgen : generate_sql (Except.ok raw) s
        = { s with error_message := "Error generating SQL: " ++ e } := by
      simp [generate_sql, herr]
    rw [hgen]
    exact ⟨hsq, string_append_ne_empty _ _ (by decide)⟩

theorem C2_generation_validation_witness :
    generate_sql (Except.ok "SELECT 1;")
      ⟨"q", "", "", [], "", [], "", "", "", []⟩
      = { (⟨"q", "", "", [], "", [], "", "", "", []⟩ : NL2SQLState) with
          sql_query := "SELECT 1;" } ∧
    "SELECT".toList.isPrefixOf (("SELECT 1;").toList.map Char.toUpper)
      = true ∧
    ∀ k ∈ prohibitedKeywords,
      hasInfix k.toList (("SELECT 1;").toList.map Char.toUpper) = false :=
  (C2_generation_validation _ "SELECT 1;" rfl).1 "SELECT 1;" rfl

/-- C3: the claim fails on the graph pipeline: in `format_results` of
`graph.py` a failing formatting model call does not fall back to a plain
table but records "Error formatting results: ..." in the error field. -/
theorem C3_counterexample :
    (format_results (Except.ok "TBL") (Except.error "boom")
      ⟨"q", "", "", [], "SELECT 1;", [[("a", "1")]], "", "", "", []⟩
      ).error_message = "Error formatting results: boom" ∧
    (format_results (Except.ok "TBL") (Except.error "boom")
      ⟨"q", "", "", [], "SELECT 1;", [[("a", "1")]], "", "", "", []⟩
      ).formatted_response = "" ∧
    ("Error formatting results: boom" : String) ≠ "" := by
  exact ⟨rfl, rfl, by decide⟩

/-- C3 (amended): the deterministic up-to-50-row fallback lives in the
legacy `SQLChain._format_results` of `chain.py`: there a failing model
call degrades to the plain-table rendering with the error left unset,
and only a failure of the fallback rendering itself sets the error.  In
`format_results` of `graph.py` a failing model call instead becomes a
pipeline error. -/
theorem C3_fallback_amended :
    (∀ (s : NL2SQLState) (t e : String),
      s.error_message = "" → s.query_results ≠ [] →
      format_results (Except.ok t) (Except.error e) s
        = { s with error_message := "Error formatting results: " ++ e }) ∧
    (∀ (s : SQLChainState) (raw e t : String),
      s.error_message = "" → s.query_results ≠ [] →
      SQLChain_format_results (Except.ok raw) (Except.error e)
        (Except.ok t) s
        = { s with formatted_results :=
            fallbackRender s.query_results.length t }) ∧
    (∀ (s : SQLChainState) (raw e fe : String),
      s.error_message = "" → s.query_results ≠ [] →
      SQLChain_format_results (Except.ok raw) (Except.error e)
        (Except.error fe) s
        = { s with error_message := "Error formatting results: " ++ fe }) := by
  refine ⟨?_, ?_, ?_⟩
  · intro s t e h1 h2
    simp [format_results, h1, h2, Except.bind]
  · intro s raw e t h1 h2
    simp [SQLChain_format_results, h1, h2, Except.bind, Except.map]
  · intro s raw e fe h1 h2
    simp [SQLChain_format_results, h1, h2, Except.bind, Except.map]

theorem C3_fallback_amended_witness :
    format_results (Except.ok "TBL") (Except.error "down")
      ⟨"q", "", "", [], "SELECT 1;", [[("a", "1")]], "", "", "", []⟩
      = { (⟨"q", "", "", [], "SELECT 1;", [[("a", "1")]], "", "", "", []⟩
          : NL2SQLState) with
          error_message := "Error formatting results: " ++ "down" } ∧
    SQLChain_format_results (Except.ok "TBL") (Except.error "down")
      (Except.ok "T50")
      ⟨"q", "", [], "SELECT 1;", [[("a", "1")]], "", "", "", ""⟩
      = { (⟨"q", "", [], "SELECT 1;", [[("a", "1")]], "", "", "", ""⟩
          : SQLChainState) with
          formatted_results := fallbackRender 1 "T50" } ∧
    SQLChain_format_results (Except.ok "TBL") (Except.error "down")
      (Except.error "fb")
      ⟨"q", "", [], "SELECT 1;", [[("a", "1")]], "", "", "", ""⟩
      = { (⟨"q", "", [], "SELECT 1;", [[("a", "1")]], "", "", "", ""⟩
          : SQLChainState) with
          error_message := "Error formatting results: " ++ "fb" } :=
  ⟨C3_fallback_amended.1 _ "TBL" "down" rfl (by decide),
   C3_fallback_amended.2.1 _ "TBL" "down" "T50" rfl (by decide),
   C3_fallback_amended.2.2 _ "TBL" "down" "fb" rfl (by decide)⟩

/-- C5: `SELECT updated_at FROM t;` is rejected with the
prohibited-keyword error for `UPDATE`, and every candidate whose
upper-cased form contains a denylisted keyword as a substring is
rejected by validation. -/
theorem C5_denylist_substring :
    validateCandidate "SELECT updated_at FROM t;"
      = Except.error "Prohibited SQL operation detected: UPDATE" ∧
    ∀ s : String,
      (∃ k ∈ prohibitedKeywords,
        hasInfix k.toList (s.toList.map Char.toUpper) = true) →
      ∀ v, validateCandidate s ≠ Except.ok v := by
  constructor
  · rfl
  · rintro s ⟨k, hk, hinf⟩ v hc
    obtain ⟨-, -, h3⟩ := validateCandidate_ok s v hc
    rw [h3 k hk] at hinf
    exact Bool.false_ne_true hinf

theorem C5_denylist_substring_witness :
    validateCandidate "SELECT updated_at FROM t;"
      ≠ Except.ok "SELECT updated_at FROM t;" :=
  C5_denylist_substring.2 "SELECT updated_at FROM t;"
    ⟨"UPDATE", by decide, by decide⟩ "SELECT updated_at FROM t;"

/-- C6: extraction from a fenced JSON payload yields exactly
`SELECT 1;`, and the reasoning block of
`<think>ignore me</think>SELECT 1;` is stripped before extraction,
which also yields `SELECT 1;`. -/
theorem C6_extraction_precedence :
    clean_and_extract_sql "```json\n\x7b\"sql_query\": \"SELECT 1;\"\x7d\n```"
      = "SELECT 1;" ∧
    clean_and_extract_sql "<think>ignore me</think>SELECT 1;"
      = "SELECT 1;" := by
  exact ⟨rfl, rfl⟩

/-- C8: with no prior error and empty results, `format_results` stores
the fixed no-results message; the result does not depend on the model
oracle, so no model call is made. -/
theorem C8_no_results :
    ∀ (s : NL2SQLState) (render llm : Except String String),
      s.error_message = "" → s.query_results = [] →
      format_results render llm s
        = { s with
            formatted_response := "No results found for your query." } := by
  intro s render llm h1 h2
  simp [format_results, h1, h2]

theorem C8_no_results_witness :
    format_results (Except.error "llm down") (Except.error "llm down")
      ⟨"q", "", "", [], "", [], "", "", "", []⟩
      = { (⟨"q", "", "", [], "", [], "", "", "", []⟩ : NL2SQLState) with
          formatted_response := "No results found for your query." } :=
  C8_no_results _ _ _ rfl rfl

theorem captureFrom_no_semi (ls : List (List Char))
    (h : ∀ x ∈ ls, x.getLast? ≠ some ';') : captureFrom ls = ls := by
  induction ls with
  | nil => rfl
  | cons l ls ih =>
    have hb : (l.getLast? == some ';') = false :=
      beq_eq_false_iff_ne.mpr (h l (List.mem_cons_self l ls))
    rw [captureFrom, hb]
    simp only [Bool.false_eq_true, if_false]
    rw [ih (fun x hx => h x (List.mem_cons_of_mem l hx))]

/-- C9: whitespace-run collapsing applies inside quoted string literals:
a statement carrying two adjacent whitespace characters between quote
characters never survives step-4 canonicalization unchanged, because the
canonical form never contains two adjacent whitespace characters. -/
theorem C9_collapse_in_literal :
    ∀ (pre lit1 lit2 post : List Char) (c1 c2 : Char),
      isWs c1 = true → isWs c2 = true →
      hasDoubleWs (finalizeList (pre ++ ['\x27'] ++ lit1 ++ [c1, c2]
        ++ lit2 ++ ['\x27'] ++ post)) = false ∧
      finalizeList (pre ++ ['\x27'] ++ lit1 ++ [c1, c2]
          ++ lit2 ++ ['\x27'] ++ post)
        ≠ pre ++ ['\x27'] ++ lit1 ++ [c1, c2] ++ lit2 ++ ['\x27'] ++ post := by
  intro pre lit1 lit2 post c1 c2 h1 h2
  refine ⟨hasDoubleWs_finalizeList _, ?_⟩
  intro hc
  have hdw : hasDoubleWs (pre ++ ['\x27'] ++ lit1 ++ [c1, c2]
      ++ lit2 ++ ['\x27'] ++ post) = true := by
    have hassoc : pre ++ ['\x27'] ++ lit1 ++ [c1, c2] ++ lit2 ++ ['\x27'] ++ post
        = (pre ++ ['\x27'] ++ lit1)
          ++ c1 :: c2 :: (lit2 ++ ['\x27'] ++ post) := by
      simp
    rw [hassoc]
    exact hasDoubleWs_pair _ _ _ _ h1 h2
  rw [← hc, hasDoubleWs_finalizeList] at hdw
  exact Bool.false_ne_true hdw

theorem C9_collapse_in_literal_witness :
    hasDoubleWs (finalizeList ("SELECT ".toList ++ ['\x27'] ++ ['a']
      ++ [' ', ' '] ++ ['b'] ++ ['\x27'] ++ " FROM t;".toList)) = false ∧
    finalizeList ("SELECT ".toList ++ ['\x27'] ++ ['a'] ++ [' ', ' ']
        ++ ['b'] ++ ['\x27'] ++ " FROM t;".toList)
      ≠ "SELECT ".toList ++ ['\x27'] ++ ['a'] ++ [' ', ' ']
        ++ ['b'] ++ ['\x27'] ++ " FROM t;".toList :=
  C9_collapse_in_literal "SELECT ".toList ['a'] ['b'] " FROM t;".toList
    ' ' ' ' (by decide) (by decide)

/-- C10: in the line-by-line strategy, capture stops at the first
captured line ending with a semicolon (inclusive); when no captured line
ends with one, every remaining line — trailing prose included — is
joined into the candidate, and step 4 terminates the result with a
semicolon. -/
theorem C10_line_capture :
    (∀ (a b : List (List Char)) (l : List Char),
      (∀ x ∈ a, x.getLast? ≠ some ';') → l.getLast? = some ';' →
      captureFrom (a ++ l :: b) = a ++ [l]) ∧
    (∀ ls : List (List Char), (∀ x ∈ ls, x.getLast? ≠ some ';') →
      captureFrom ls = ls) ∧
    (∀ (c l0 : List Char) (ls : List (List Char)),
      strat1 c = none →
      (linesOf c).dropWhile (fun l => !startsSelect l) = l0 :: ls →
      (∀ x ∈ l0 :: ls, x.getLast? ≠ some ';') →
      extractedRaw c = joinSpace (l0 :: ls) ∧
      (finalizeList (extractedRaw c)).getLast? = some ';') := by
  refine ⟨?_, fun ls h => captureFrom_no_semi ls h, ?_⟩
  · intro a
    induction a with
    | nil =>
      intro b l _ hl
      rw [List.nil_append, captureFrom, beq_iff_eq.mpr hl]
      rfl
    | cons x xs ih =>
      intro b l ha hl
      have hb : (x.getLast? == some ';') = false :=
        beq_eq_false_iff_ne.mpr (ha x (List.mem_cons_self x xs))
      rw [List.cons_append, captureFrom, hb]
      simp only [Bool.false_eq_true, if_false]
      rw [ih b l (fun y hy => ha y (List.mem_cons_of_mem x hy)) hl,
        List.cons_append]
  · intro c l0 ls h1 hdrop hns
    have h2 : strat2 (linesOf c)
        = some (joinSpace (captureFrom (l0 :: ls))) := by
      unfold strat2
      rw [hdrop]
    rw [captureFrom_no_semi _ hns] at h2
    have he : extractedRaw c = joinSpace (l0 :: ls) := by
      unfold extractedRaw
      rw [h1, h2]
    exact ⟨he, by rw [he]; exact finalizeList_getLast _⟩

theorem C10_line_capture_witness :
    captureFrom (["SELECT a".toList] ++ "FROM t;".toList :: ["x".toList])
      = ["SELECT a".toList] ++ ["FROM t;".toList] ∧
    captureFrom ["SELECT a".toList, "FROM t".toList] =
      ["SELECT a".toList, "FROM t".toList] ∧
    (extractedRaw ("hello\nSELECT a\nFROM t\nthanks".toList)
      = joinSpace ("SELECT a".toList :: ["FROM t".toList, "thanks".toList]) ∧
    (finalizeList (extractedRaw
      ("hello\nSELECT a\nFROM t\nthanks".toList))).getLast? = some ';') :=
  ⟨C10_line_capture.1 ["SELECT a".toList] ["x".toList] "FROM t;".toList
      (by decide) (by decide),
   C10_line_capture.2.1 ["SELECT a".toList, "FROM t".toList] (by decide),
   C10_line_capture.2.2 "hello\nSELECT a\nFROM t\nthanks".toList
      "SELECT a".toList ["FROM t".toList, "thanks".toList]
      (by decide) (by decide) (by decide)⟩

theorem extractedRaw_no_select (c : List Char)
    (hni : ¬ ("SELECT".toList <:+: c.map Char.toUpper)) :
    extractedRaw c = stripChars c := by
  have h1 : strat1 c = none := by
    cases hs : strat1 c with
    | none => rfl
    | some m => exact absurd (strat1_some_select c m hs) hni
  have hlines : ∀ m ∈ linesOf c, startsSelect m = false := by
    intro m hm
    cases hx : startsSelect m with
    | false => rfl
    | true =>
      have hpre : "SELECT".toList <+: m.map Char.toUpper :=
        List.isPrefixOf_iff_prefix.mp hx
      exact absurd (hpre.isInfix.trans
        (List.IsInfix.map Char.toUpper (mem_linesOf_sub c m hm))) hni
  have h2 : strat2 (linesOf c) = none := by
    unfold strat2
    have hd : (linesOf c).dropWhile (fun l => !startsSelect l) = [] :=
      List.dropWhile_eq_nil_iff.mpr (fun x hx => by rw [hlines x hx]; rfl)
    rw [hd]
  have h3 : strat3 (linesOf c) = none := by
    unfold strat3
    refine List.find?_eq_none.mpr ?_
    intro m hm hx
    exact absurd (((hasInfix_iff _ _).mp hx).trans
      (List.IsInfix.map Char.toUpper (mem_linesOf_sub c m hm))) hni
  unfold extractedRaw
  rw [h1, h2, h3]

/-- C4: extraction never fails with an ExtractionError: on
"no sql here", where no line contains SELECT, the whole content becomes
the candidate "no sql here;", and the SELECT-prefix validation then
rejects it with the fixed message, which carries no preview of the
input. -/
theorem C4_counterexample :
    clean_and_extract_sql "no sql here" = "no sql here;" ∧
    sqlQueryValidator "no sql here"
      = Except.error "Only SELECT queries are allowed" := ⟨rfl, rfl⟩

/-- C4 (amended): when no extraction strategy matches — no SELECT token
occurs in the cleaned content in any case — extraction does not fail:
the stripped content itself, canonicalized, becomes the candidate, and
the subsequent SELECT-prefix validation rejects it with the fixed
message "Only SELECT queries are allowed"; no ExtractionError with a
truncated 100-character preview exists in the code. -/
theorem C4_no_select_fallback :
    ∀ v : String,
      hasInfix "SELECT".toList ((cleanList v.toList).map Char.toUpper)
        = false →
      cleanExtractList v.toList
        = finalizeList (stripChars (cleanList v.toList)) ∧
      sqlQueryValidator v
        = Except.error "Only SELECT queries are allowed" := by
  intro v hinf
  have hni := (hasInfix_eq_false _ _).mp hinf
  have he : extractedRaw (cleanList v.toList)
      = stripChars (cleanList v.toList) :=
    extractedRaw_no_select _ hni
  have hcl : cleanExtractList v.toList
      = finalizeList (stripChars (cleanList v.toList)) := by
    unfold cleanExtractList
    rw [he]
  refine ⟨hcl, ?_⟩
  unfold sqlQueryValidator validateCandidate must_be_select_query
  have hdata : (clean_and_extract_sql v).toList = cleanExtractList v.toList := by
    rw [clean_and_extract_sql_eq, mk_toList]
  have hns : "SELECT".toList.isPrefixOf
      ((clean_and_extract_sql v).toList.map Char.toUpper) = false := by
    cases hx : "SELECT".toList.isPrefixOf
        ((clean_and_extract_sql v).toList.map Char.toUpper) with
    | false => rfl
    | true =>
      have hpre := List.isPrefixOf_iff_prefix.mp hx
      rw [hdata, hcl] at hpre
      have hstep : "SELECT".toList <:+:
          (stripChars (cleanList v.toList)).map Char.toUpper :=
        infix_finalize_map "SELECT".toList (stripChars (cleanList v.toList))
          (by decide) (by decide) hpre.isInfix
      exact absurd (hstep.trans
        (List.IsInfix.map Char.toUpper (stripChars_sub _))) hni
  have hcond : ¬ ("SELECT".toList.isPrefixOf
      ((clean_and_extract_sql v).toList.map Char.toUpper) = true) := by
    intro hx
    rw [hns] at hx
    exact Bool.false_ne_true hx
  rw [if_neg hcond]
  rfl

theorem C4_no_select_fallback_witness :
    cleanExtractList ("no answer").toList
      = finalizeList (stripChars (cleanList ("no answer").toList)) ∧
    sqlQueryValidator "no answer"
      = Except.error "Only SELECT queries are allowed" :=
  C4_no_select_fallback "no answer" (by decide)

theorem mk_data_eq (s : String) : String.mk s.toList = s := by
  cases s
  rfl

theorem matchLabel1_SE (r : List Char) : matchLabel1 ('S' :: 'E' :: r) = none := by
  have hx : ciPrefix "sql".toList ('S' :: 'E' :: r) = false := by
    unfold ciPrefix
    simp only [List.map_cons, show Char.toLower 'S' = 's' from by decide,
      show Char.toLower 'E' = 'e' from by decide]
    show List.isPrefixOf ['s', 'q', 'l'] ('s' :: 'e' :: r.map Char.toLower)
      = false
    simp [List.isPrefixOf, show (('q' : Char) == 'e') = false from by decide]
  unfold matchLabel1
  rw [hx]
  simp

theorem matchLabel2_SE (r : List Char) : matchLabel2 ('S' :: 'E' :: r) = none := by
  have hx : ciPrefix "sql:".toList ('S' :: 'E' :: r) = false := by
    unfold ciPrefix
    simp only [List.map_cons, show Char.toLower 'S' = 's' from by decide,
      show Char.toLower 'E' = 'e' from by decide]
    show List.isPrefixOf ['s', 'q', 'l', ':']
      ('s' :: 'e' :: r.map Char.toLower) = false
    simp [List.isPrefixOf, show (('q' : Char) == 'e') = false from by decide]
  unfold matchLabel2
  rw [hx]
  simp

theorem cleanList_eq_self (l : List Char)
    (hth : hasInfix thinkOpen l = false)
    (hf : hasInfix "```".toList l = false)
    (hnl : '\n' ∉ l)
    (hm1 : matchLabel1 l = none) (hm2 : matchLabel2 l = none) :
    cleanList l = l := by
  unfold cleanList removeThink removeFenceSql removeFence removeLabel1
    removeLabel2
  rw [removeThinkF_eq_self l.length l le_rfl hth]
  rw [removePatNlF_eq_self "```".toList "```sql".toList
    (List.isPrefixOf_iff_prefix.mp (by decide)) l.length l le_rfl hf]
  rw [removePatNlF_eq_self "```".toList "```".toList (List.prefix_refl _)
    l.length l le_rfl hf]
  rw [removeLabelF_eq_self matchLabel1 l.length true l le_rfl hnl
    (fun _ => hm1)]
  rw [removeLabelF_eq_self matchLabel2 l.length true l le_rfl hnl
    (fun _ => hm2)]

theorem canonicalSelect_spec (s : String) (h : canonicalSelect s = true) :
    "SELECT ".toList <+: s.toList ∧ s.toList.getLast? = some ';' ∧
    s.toList.count ';' = 1 ∧ collapseWs s.toList = s.toList := by
  unfold canonicalSelect at h
  simp only [Bool.and_eq_true, beq_iff_eq, List.isPrefixOf_iff_prefix] at h
  exact ⟨h.1.1.1, h.1.1.2, h.1.2, h.2⟩

theorem canonical_decomp (s : String) (hpre : "SELECT ".toList <+: s.toList)
    (hlast : s.toList.getLast? = some ';')
    (hcount : s.toList.count ';' = 1) :
    ∃ body, s.toList = "SELECT ".toList ++ (body ++ [';']) ∧ ';' ∉ body := by
  obtain ⟨t, ht⟩ := hpre
  rcases List.eq_nil_or_concat t with rfl | ⟨body, x, rfl⟩
  · rw [← ht] at hlast
    exact absurd hlast (by decide)
  · rw [List.concat_eq_append] at ht
    have hx : x = ';' := by
      have h1 : (("SELECT ".toList ++ body) ++ [x]).getLast? = some x :=
        List.getLast?_concat _
      rw [List.append_assoc, ht, hlast] at h1
      exact (Option.some.injEq _ _ ▸ h1).symm
    subst hx
    refine ⟨body, ht.symm, ?_⟩
    have hc := hcount
    rw [← ht, List.count_append, List.count_append] at hc
    rw [show List.count ';' "SELECT ".toList = 0 from by decide,
      show List.count ';' [';'] = 1 from by decide] at hc
    exact List.count_eq_zero.mp (by omega)

theorem strat1_canonical (body : List Char) (hb : ';' ∉ body) :
    strat1 ("SELECT ".toList ++ (body ++ [';']))
      = some ("SELECT ".toList ++ (body ++ [';'])) := by
  have hts : takeThroughSemi (body ++ [';']) = some (body ++ [';']) := by
    have h := takeThroughSemi_concat body [] hb
    simpa using h
  have hma : matchSelectAt
      ('S' :: 'E' :: 'L' :: 'E' :: 'C' :: 'T' :: ' ' :: (body ++ [';']))
      = some ('S' :: 'E' :: 'L' :: 'E' :: 'C' :: 'T' :: ' '
        :: (body ++ [';'])) := by
    rw [matchSelectAt]
    rw [if_pos (by decide)]
    rw [hts]
    rfl
  show strat1 ('S' :: 'E' :: 'L' :: 'E' :: 'C' :: 'T' :: ' '
    :: (body ++ [';'])) = _
  rw [strat1, hma]
  rfl

theorem no_nl_of_collapse_fixed (l : List Char)
    (hcol : collapseWs l = l) : '\n' ∉ l := by
  intro hmem
  have hmem' : '\n' ∈ collapseWsA false l := by
    show '\n' ∈ collapseWs l
    rw [hcol]
    exact hmem
  rcases mem_collapseWsA false l '\n' hmem' with h | h
  · exact absurd h (by decide)
  · exact absurd h (by decide)

theorem finalize_canonical (l : List Char) (hh : l.head? = some 'S')
    (hlast : l.getLast? = some ';') (hcol : collapseWs l = l) :
    finalizeList l = l := by
  unfold finalizeList
  rw [stripChars_eq_self l 'S' ';' hh (by decide) hlast (by decide), hcol]
  unfold dropDot
  rw [hlast, if_neg (by decide)]
  unfold ensureSemi
  rw [hlast, if_pos (by decide)]

/-- C7: the claim's universal idempotence fails: the canonical statement
`SELECT '```' FROM t;` (whitespace-normalized, one trailing semicolon)
is changed by extraction, because fence stripping deletes the backticks
inside the string literal. -/
theorem C7_counterexample :
    canonicalSelect "SELECT \x27```\x27 FROM t;" = true ∧
    clean_and_extract_sql "SELECT \x27```\x27 FROM t;"
      = "SELECT \x27\x27 FROM t;" ∧
    ("SELECT \x27\x27 FROM t;" : String) ≠ "SELECT \x27```\x27 FROM t;" := by
  exact ⟨rfl, rfl, by decide⟩

/-- C7 (amended): extraction is the identity on every canonical
`SELECT ... ;` statement that contains no markdown fence `` ``` `` and
no reasoning-block opener; and `"SELECT  1\n\tFROM t"` canonicalizes to
`"SELECT 1 FROM t;"`. -/
theorem C7_idempotence_amended :
    (∀ s : String, canonicalSelect s = true →
      hasInfix "```".toList s.toList = false →
      hasInfix thinkOpen s.toList = false →
      clean_and_extract_sql s = s) ∧
    clean_and_extract_sql "SELECT  1\n\tFROM t" = "SELECT 1 FROM t;" := by
  refine ⟨?_, rfl⟩
  intro s hcan hfence hthink
  obtain ⟨hpre, hlast, hcount, hcol⟩ := canonicalSelect_spec s hcan
  obtain ⟨body, hdec, hbody⟩ := canonical_decomp s hpre hlast hcount
  have hnl : '\n' ∉ s.toList := no_nl_of_collapse_fixed _ hcol
  have hm1 : matchLabel1 s.toList = none := by
    rw [hdec]
    show matchLabel1 ('S' :: 'E'
      :: ('L' :: 'E' :: 'C' :: 'T' :: ' ' :: (body ++ [';']))) = none
    exact matchLabel1_SE _
  have hm2 : matchLabel2 s.toList = none := by
    rw [hdec]
    show matchLabel2 ('S' :: 'E'
      :: ('L' :: 'E' :: 'C' :: 'T' :: ' ' :: (body ++ [';']))) = none
    exact matchLabel2_SE _
  have hclean : cleanList s.toList = s.toList :=
    cleanList_eq_self _ hthink hfence hnl hm1 hm2
  have hstrat : strat1 s.toList = some s.toList := by
    rw [hdec]
    exact strat1_canonical body hbody
  have hext : extractedRaw s.toList = s.toList := by
    unfold extractedRaw
    rw [hstrat]
  have hfin : finalizeList s.toList = s.toList := by
    refine finalize_canonical _ ?_ hlast hcol
    rw [hdec]
    rfl
  rw [clean_and_extract_sql_eq]
  unfold cleanExtractList
  rw [hclean, hext, hfin]
  exact mk_data_eq s

theorem C7_idempotence_amended_witness :
    clean_and_extract_sql "SELECT a FROM t;" = "SELECT a FROM t;" :=
  C7_idempotence_amended.1 "SELECT a FROM t;" (by decide) (by decide)
    (by decide)

end QueryBuddy
